import Mathlib

/-!
Verification development for `og_marl/replay_buffers.py` (class
`FlashbaxReplayBuffer`).

The facade methods (`__init__`, `add`, `sample`, `populate_from_vault`) are
translated directly from the source module.  The flashbax trajectory-buffer
primitives (`fbx.make_trajectory_buffer` and the pure `init`/`add`/`sample`
functions of the buffer it returns), the jax splittable pseudo-random
generator, and the on-disk vault read are external library calls whose code is
not part of this repository; those are modelled from the specification, as
marked on each definition.  Array payloads are abstracted by a type parameter
`α`; the unit leading batch and time dimensions added in `add` are implicit.
-/

/-- One timestep record: the six parallel per-agent fields bundled by
`FlashbaxReplayBuffer.add`.  The array payload of each field is abstracted by
the type `α`; the zero-filled array allocated by the store's `init` is modelled
by `default`. -/
structure Timestep (α : Type) where
  observations : α
  actions : α
  rewards : α
  terminals : α
  truncations : α
  infos : α
  deriving DecidableEq

instance (α : Type) [Inhabited α] : Inhabited (Timestep α) :=
  ⟨⟨default, default, default, default, default, default⟩⟩

/-- Configuration handed to `fbx.make_trajectory_buffer`.  The pure
`init`/`add`/`sample` functions of the buffer the call returns are the
functions below applied to this record, so holding this record models holding
those (jitted) functions. -/
structure TrajectoryBufferConfig where
  add_batch_size : Nat
  sample_batch_size : Nat
  sample_sequence_length : Nat
  period : Nat
  min_length_time_axis : Nat
  max_size : Nat
  deriving DecidableEq

/-- Modelled from the spec: the missing flashbax `TrajectoryBufferState` — the
trajectory store's backing storage for its single episode row, a write cursor
kept in `[0, capacity)`, and an is-full flag set once the cursor has wrapped. -/
structure TrajectoryBufferState (α : Type) where
  experience : List (Timestep α)
  current_index : Nat
  is_full : Bool
  deriving DecidableEq

/-- Modelled from the spec: the missing flashbax buffer `init` — allocates
zero-filled backing storage sized to `capacity` timesteps, cursor `0`,
occupancy flag `false`. -/
def buffer_init (α : Type) [Inhabited α] (cfg : TrajectoryBufferConfig) :
    TrajectoryBufferState α :=
  ⟨List.replicate cfg.max_size default, 0, false⟩

/-- Modelled from the spec: the missing flashbax buffer `add` — writes the
timestep at the current cursor position, advances the cursor by one modulo
capacity, and sets the occupancy flag once the cursor wraps past the end. -/
def buffer_add {α : Type} (cfg : TrajectoryBufferConfig)
    (s : TrajectoryBufferState α) (t : Timestep α) : TrajectoryBufferState α :=
  { experience := s.experience.set s.current_index t
    current_index := (s.current_index + 1) % cfg.max_size
    is_full := s.is_full || decide (cfg.max_size ≤ s.current_index + 1) }

/-- Modelled from the spec: the number of live (written) slots of the store. -/
def numWritten {α : Type} (cfg : TrajectoryBufferConfig)
    (s : TrajectoryBufferState α) : Nat :=
  if s.is_full then cfg.max_size else s.current_index

/-- Modelled from the spec: the missing flashbax eligible-offset computation —
all start indices `i` on the `period` stride whose window
`[i, i + sample_sequence_length)` lies entirely within written data; once the
store is full every ring position on the stride is a valid origin (windows then
wrap modulo capacity). -/
def eligibleOffsets {α : Type} (cfg : TrajectoryBufferConfig)
    (s : TrajectoryBufferState α) : List Nat :=
  if s.is_full then
    (List.range cfg.max_size).filter (fun i => decide (i % cfg.period = 0))
  else
    (List.range s.current_index).filter
      (fun i =>
        decide (i + cfg.sample_sequence_length ≤ s.current_index) &&
          decide (i % cfg.period = 0))

/-- Modelled from the spec: the contiguous window of `sample_sequence_length`
timesteps starting at ring offset `o`, wrapping modulo capacity; a slot that
was never written reads back as the zero-filled initial value. -/
def windowAt {α : Type} [Inhabited α] (cfg : TrajectoryBufferConfig)
    (s : TrajectoryBufferState α) (o : Nat) : List (Timestep α) :=
  (List.range cfg.sample_sequence_length).map
    (fun j => s.experience.getD ((o + j) % cfg.max_size) default)

/-- Modelled from the spec: the missing flashbax offset draw — choose
`sample_batch_size` start offsets uniformly (with replacement) from the
eligible set, driven by the supplied generator key; when no offset is eligible
(an under-filled store) the draw degenerates to offset `0`, because nothing in
the sampler guards against insufficient data. -/
def sampledOffsets {α : Type} (cfg : TrajectoryBufferConfig)
    (s : TrajectoryBufferState α) (key : Nat) : List Nat :=
  let elig := eligibleOffsets cfg s
  (List.range cfg.sample_batch_size).map
    (fun i => elig.getD ((key + i) % elig.length) 0)

/-- Modelled from the spec: the missing flashbax buffer `sample` — extracts the
window at each drawn offset and stacks the windows into a batch. -/
def buffer_sample {α : Type} [Inhabited α] (cfg : TrajectoryBufferConfig)
    (s : TrajectoryBufferState α) (key : Nat) : List (List (Timestep α)) :=
  (sampledOffsets cfg s key).map (windowAt cfg s)

/-- Modelled from the spec: the missing jax splittable generator — `split` maps
a key (a node of an infinite binary tree of keys) to two fresh child keys, the
continuation key kept by the facade and the consumed sample key. -/
def prng_split (k : Nat) : Nat × Nat := (2 * k + 1, 2 * k + 2)

/-- Modelled from the spec: the missing `jax.random.PRNGKey` — deterministic
construction of the root key from the integer seed. -/
def PRNGKeyOf (seed : Nat) : Nat := seed

/-- Failure conditions observable at the facade's `sample` entry point.  The
source raises an exception when the buffer state is still `None`; no code path
produces a dedicated insufficient-data error. -/
inductive SampleError where
  | uninitializedState
  | insufficientData
  deriving DecidableEq

/-- State of a `FlashbaxReplayBuffer` instance, from the source: the three
configuration attributes, the trajectory-buffer configuration (standing for
`_replay_buffer` together with the jitted `_buffer_add_fn`/`_buffer_sample_fn`
bound to it), the lazily created buffer state (`None` until the first add), and
the generator key. -/
structure FlashbaxReplayBuffer (α : Type) where
  _sequence_length : Nat
  _max_size : Nat
  _batch_size : Nat
  _replay_buffer : TrajectoryBufferConfig
  _buffer_state : Option (TrajectoryBufferState α)
  _rng_key : Nat
  deriving DecidableEq

/-- Translation of `FlashbaxReplayBuffer.__init__`. -/
def FlashbaxReplayBuffer.make (α : Type) (sequence_length max_size batch_size
    sample_period seed : Nat) : FlashbaxReplayBuffer α :=
  { _sequence_length := sequence_length
    _max_size := max_size
    _batch_size := batch_size
    _replay_buffer :=
      { add_batch_size := 1
        sample_batch_size := batch_size
        sample_sequence_length := sequence_length
        period := sample_period
        min_length_time_axis := 1
        max_size := max_size }
    _buffer_state := none
    _rng_key := PRNGKeyOf seed }

/-- Translation of `FlashbaxReplayBuffer.add`: bundle the six fields into a
timestep, lazily initialise the buffer state on the first call, and delegate
to the buffer's add function. -/
def FlashbaxReplayBuffer.add {α : Type} [Inhabited α]
    (self : FlashbaxReplayBuffer α)
    (observations actions rewards terminals truncations infos : α) :
    FlashbaxReplayBuffer α :=
  let timestep : Timestep α :=
    ⟨observations, actions, rewards, terminals, truncations, infos⟩
  let st :=
    match self._buffer_state with
    | none => buffer_init α self._replay_buffer
    | some s => s
  { self with _buffer_state := some (buffer_add self._replay_buffer st timestep) }

/-- Translation of `FlashbaxReplayBuffer.sample`: the key is split first and
the continuation key stored back before the sampler is invoked, so the key
advances even when the delegate fails; a still-uninitialised (`None`) buffer
state makes the delegate raise, modelled as an error result. -/
def FlashbaxReplayBuffer.sample {α : Type} [Inhabited α]
    (self : FlashbaxReplayBuffer α) :
    Except SampleError (List (List (Timestep α))) × FlashbaxReplayBuffer α :=
  let ks := prng_split self._rng_key
  let self' := { self with _rng_key := ks.1 }
  match self._buffer_state with
  | none => (Except.error SampleError.uninitializedState, self')
  | some s => (Except.ok (buffer_sample self._replay_buffer s ks.2), self')

/-- Translation of `FlashbaxReplayBuffer.populate_from_vault`.  The vault read
is external I/O modelled from the spec: its outcome is passed in as `none`
(the read raised, the `except ValueError` path — missing file, version
mismatch, corrupt data) or `some st` (the read returned a stored buffer
state).  On success the buffer state is replaced wholesale, `_max_size` is
recomputed from the loaded write cursor, and the buffer configuration (with
its add/sample functions) is rebuilt with period `1` and the new capacity; on
failure only `False` is returned. -/
def FlashbaxReplayBuffer.populate_from_vault {α : Type}
    (self : FlashbaxReplayBuffer α)
    (vault_read : Option (TrajectoryBufferState α)) :
    Bool × FlashbaxReplayBuffer α :=
  match vault_read with
  | none => (false, self)
  | some st =>
    (true,
      { self with
        _buffer_state := some st
        _max_size := st.current_index
        _replay_buffer :=
          { add_batch_size := 1
            sample_batch_size := self._batch_size
            sample_sequence_length := self._sequence_length
            period := 1
            min_length_time_axis := 1
            max_size := st.current_index } })

/-- Fold the buffer-level add over a list of timesteps. -/
def addMany {α : Type} (cfg : TrajectoryBufferConfig)
    (s : TrajectoryBufferState α) (ts : List (Timestep α)) :
    TrajectoryBufferState α :=
  ts.foldl (buffer_add cfg) s

/-- The buffer state reached from a fresh store by adding the first `n`
timesteps of the stream `v` in order. -/
def afterAdds {α : Type} [Inhabited α] (cfg : TrajectoryBufferConfig)
    (v : Nat → Timestep α) (n : Nat) : TrajectoryBufferState α :=
  addMany cfg (buffer_init α cfg) ((List.range n).map v)

/-- Call `FlashbaxReplayBuffer.add` `n` times in order with the six per-field
value streams. -/
def addSeq {α : Type} [Inhabited α] (self : FlashbaxReplayBuffer α)
    (obs act rew ter tru inf : Nat → α) (n : Nat) : FlashbaxReplayBuffer α :=
  (List.range n).foldl
    (fun g k => g.add (obs k) (act k) (rew k) (ter k) (tru k) (inf k)) self

/-- The timestep all of whose fields carry the scalar `k` (distinct scalar
reward values such as the spec's rewards `0..9`). -/
def natTimestep (k : Nat) : Timestep Nat := ⟨k, k, k, k, k, k⟩

/-- One facade call of a client call sequence: an `add` with its six field
payloads, or a `sample`. -/
inductive FacadeCall (α : Type) where
  | add (observations actions rewards terminals truncations infos : α)
  | sample
  deriving DecidableEq

/-- Run a call sequence against a facade, returning the final facade and the
list of results of the `sample` calls in order. -/
def runCalls {α : Type} [Inhabited α] (self : FlashbaxReplayBuffer α) :
    List (FacadeCall α) →
      FlashbaxReplayBuffer α ×
        List (Except SampleError (List (List (Timestep α))))
  | [] => (self, [])
  | FacadeCall.add o a r t tr i :: cs => runCalls (self.add o a r t tr i) cs
  | FacadeCall.sample :: cs =>
    let res := self.sample
    let rest := runCalls res.2 cs
    (rest.1, res.1 :: rest.2)

/-- The generator keys consumed (passed to the sampler) by the `sample` calls
of a call sequence, in order. -/
def consumedKeys {α : Type} [Inhabited α] (self : FlashbaxReplayBuffer α) :
    List (FacadeCall α) → List Nat
  | [] => []
  | FacadeCall.add o a r t tr i :: cs => consumedKeys (self.add o a r t tr i) cs
  | FacadeCall.sample :: cs =>
    (prng_split self._rng_key).2 :: consumedKeys self.sample.2 cs

/-- Claim C1 helper statement is immediate from the translation; no helper
lemmas are needed for the populate theorems. -/
theorem populate_none_eq {α : Type} (f : FlashbaxReplayBuffer α) :
    f.populate_from_vault none = (false, f) := rfl

/-- C1: a failing `populate_from_vault` call (vault read raises: snapshot
missing, malformed, or otherwise unloadable) returns `False` and leaves every
piece of the facade's state — buffer state, `_max_size`, the replay-buffer
configuration with its add/sample functions, and the generator key — exactly
as it was; no failing call partially mutates the facade. -/
theorem C1_populate_failure_no_mutation {α : Type}
    (f : FlashbaxReplayBuffer α) :
    (f.populate_from_vault none).1 = false ∧
      (f.populate_from_vault none).2 = f ∧
      (f.populate_from_vault none).2._buffer_state = f._buffer_state ∧
      (f.populate_from_vault none).2._max_size = f._max_size ∧
      (f.populate_from_vault none).2._replay_buffer = f._replay_buffer ∧
      (f.populate_from_vault none).2._rng_key = f._rng_key :=
  ⟨rfl, rfl, rfl, rfl, rfl, rfl⟩

/-- C2: a successful `populate_from_vault` call returns `True`, recomputes
`_max_size` to the loaded buffer state's current write index, and rebuilds the
buffer configuration (hence the add and sample functions bound to it) with
that new capacity, the facade's sequence length and batch size, and period 1 —
replacing the construction-time configuration. -/
theorem C2_populate_success_recomputes_geometry {α : Type}
    (f : FlashbaxReplayBuffer α) (st : TrajectoryBufferState α) :
    (f.populate_from_vault (some st)).1 = true ∧
      (f.populate_from_vault (some st)).2._max_size = st.current_index ∧
      (f.populate_from_vault (some st)).2._buffer_state = some st ∧
      (f.populate_from_vault (some st)).2._replay_buffer =
        { add_batch_size := 1
          sample_batch_size := f._batch_size
          sample_sequence_length := f._sequence_length
          period := 1
          min_length_time_axis := 1
          max_size := st.current_index } :=
  ⟨rfl, rfl, rfl, rfl⟩

/-- C9: whether it succeeds or fails, `populate_from_vault` leaves the
configuration fields `_sequence_length` and `_batch_size` (and the generator
key) unchanged; among the construction parameters only `_max_size` is ever
overwritten. -/
theorem C9_populate_preserves_config {α : Type}
    (f : FlashbaxReplayBuffer α) (v : Option (TrajectoryBufferState α)) :
    (f.populate_from_vault v).2._sequence_length = f._sequence_length ∧
      (f.populate_from_vault v).2._batch_size = f._batch_size ∧
      (f.populate_from_vault v).2._rng_key = f._rng_key := by
  cases v with
  | none => exact ⟨rfl, rfl, rfl⟩
  | some st => exact ⟨rfl, rfl, rfl⟩

/-- Helper: `getD` of a `replicate` with the same default is that default. -/
theorem getD_replicate_self {β : Type} (m j : Nat) (x : β) :
    (List.replicate m x).getD j x = x := by
  induction m generalizing j with
  | zero => simp [List.getD]
  | succ m ih =>
    cases j with
    | zero => rfl
    | succ j => simp [List.replicate_succ, ih j]

/-- Helper: reading back the slot just written by `List.set`. -/
theorem getD_set_self {β : Type} (l : List β) (i : Nat) (x d : β)
    (h : i < l.length) : (l.set i x).getD i d = x := by
  induction l generalizing i with
  | nil => simp at h
  | cons a l ih =>
    cases i with
    | zero => rfl
    | succ i => exact ih i (by simpa using h)

/-- Helper: `List.set` leaves every other slot unchanged under `getD`. -/
theorem getD_set_ne {β : Type} (l : List β) (i j : Nat) (x d : β)
    (h : i ≠ j) : (l.set i x).getD j d = l.getD j d := by
  induction l generalizing i j with
  | nil => simp
  | cons a l ih =>
    cases i with
    | zero =>
      cases j with
      | zero => exact absurd rfl h
      | succ j => rfl
    | succ i =>
      cases j with
      | zero => rfl
      | succ j => exact ih i j (fun hh => h (by rw [hh]))

/-- Unfolding of one more add on top of the first `n`. -/
theorem afterAdds_succ {α : Type} [Inhabited α] (cfg : TrajectoryBufferConfig)
    (v : Nat → Timestep α) (n : Nat) :
    afterAdds cfg v (n + 1) = buffer_add cfg (afterAdds cfg v n) (v n) := by
  simp [afterAdds, addMany, List.range_succ]

/-- The backing storage never grows nor shrinks: its length stays the
configured capacity after any number of adds. -/
theorem afterAdds_length {α : Type} [Inhabited α] (cfg : TrajectoryBufferConfig)
    (v : Nat → Timestep α) (n : Nat) :
    (afterAdds cfg v n).experience.length = cfg.max_size := by
  induction n with
  | zero => simp [afterAdds, addMany, buffer_init]
  | succ n ih => rw [afterAdds_succ]; simpa [buffer_add] using ih

/-- The write cursor after `n` adds is `n` modulo capacity. -/
theorem afterAdds_current_index {α : Type} [Inhabited α]
    (cfg : TrajectoryBufferConfig) (v : Nat → Timestep α) (n : Nat) :
    (afterAdds cfg v n).current_index = n % cfg.max_size := by
  induction n with
  | zero => simp [afterAdds, addMany, buffer_init]
  | succ n ih => rw [afterAdds_succ]; simp [buffer_add, ih, Nat.mod_add_mod]

/-- The occupancy flag after `n` adds records whether the cursor has wrapped,
i.e. whether `n` reached the capacity. -/
theorem afterAdds_is_full {α : Type} [Inhabited α]
    (cfg : TrajectoryBufferConfig) (v : Nat → Timestep α)
    (hcap : 0 < cfg.max_size) (n : Nat) :
    (afterAdds cfg v n).is_full = decide (cfg.max_size ≤ n) := by
  induction n with
  | zero =>
    simp [afterAdds, addMany, buffer_init, Nat.not_le.mpr hcap]
  | succ n ih =>
    rw [afterAdds_succ]
    simp only [buffer_add, afterAdds_current_index, ih]
    by_cases h : cfg.max_size ≤ n
    · simp [h, Nat.le_succ_of_le h]
    · have hlt : n < cfg.max_size := Nat.lt_of_not_le h
      rw [Nat.mod_eq_of_lt hlt]
      simp [h]

/-- Slot contents before any wraparound: after `n ≤ capacity` adds, slot `j`
holds the `j`-th added timestep when `j < n` and the zero-filled initial value
otherwise. -/
theorem afterAdds_getD_lt {α : Type} [Inhabited α]
    (cfg : TrajectoryBufferConfig) (v : Nat → Timestep α) (n j : Nat)
    (hn : n ≤ cfg.max_size) :
    (afterAdds cfg v n).experience.getD j default =
      if j < n then v j else default := by
  induction n with
  | zero =>
    simp only [afterAdds, addMany, List.range_zero, List.map_nil,
      List.foldl_nil, buffer_init, Nat.not_lt_zero, if_false]
    by_cases hj : j < cfg.max_size
    · exact getD_replicate_self _ _ _
    · rw [List.getD_eq_default]
      simpa using Nat.le_of_not_lt hj
  | succ n ih =>
    have hn' : n ≤ cfg.max_size := Nat.le_of_succ_le hn
    have hnlt : n < cfg.max_size := hn
    rw [afterAdds_succ]
    simp only [buffer_add]
    rw [afterAdds_current_index, Nat.mod_eq_of_lt hnlt]
    by_cases hj : j = n
    · subst hj
      rw [getD_set_self]
      · simp
      · rw [afterAdds_length]; exact hnlt
    · rw [getD_set_ne _ _ _ _ _ (fun hh => hj hh.symm), ih hn']
      by_cases hjn : j < n
      · simp [hjn, Nat.lt_succ_of_lt hjn]
      · have h2 : ¬ j < n + 1 := by omega
        simp [hjn, h2]

/-- Slot contents once the ring has wrapped: after `n ≥ capacity` adds, reading
the ring forward from the cursor reproduces the most recent `capacity`
timesteps in their original temporal order. -/
theorem afterAdds_getD_wrap {α : Type} [Inhabited α]
    (cfg : TrajectoryBufferConfig) (v : Nat → Timestep α)
    (hcap : 0 < cfg.max_size) (n : Nat) (hn : cfg.max_size ≤ n) :
    ∀ i, i < cfg.max_size →
      (afterAdds cfg v n).experience.getD
          ((n % cfg.max_size + i) % cfg.max_size) default =
        v (n - cfg.max_size + i) := by
  induction n, hn using Nat.le_induction with
  | base =>
    intro i hi
    rw [Nat.mod_self, Nat.zero_add, Nat.mod_eq_of_lt hi,
      afterAdds_getD_lt cfg v cfg.max_size i (Nat.le_refl _)]
    simp [hi]
  | succ n hn ih =>
    intro i hi
    rw [afterAdds_succ]
    simp only [buffer_add]
    rw [afterAdds_current_index]
    have hr : n % cfg.max_size < cfg.max_size := Nat.mod_lt _ hcap
    have hlen : (afterAdds cfg v n).experience.length = cfg.max_size :=
      afterAdds_length cfg v n
    have hcanon : ((n + 1) % cfg.max_size + i) % cfg.max_size
        = (n + 1 + i) % cfg.max_size := Nat.mod_add_mod _ _ _
    by_cases hlast : i = cfg.max_size - 1
    · have hslot : ((n + 1) % cfg.max_size + i) % cfg.max_size
          = n % cfg.max_size := by
        rw [hcanon, hlast]
        have h1 : n + 1 + (cfg.max_size - 1) = n + cfg.max_size := by omega
        rw [h1, Nat.add_mod_right]
      rw [hslot, getD_set_self]
      · congr 1
        omega
      · rw [hlen]; exact hr
    · have hi1 : i + 1 < cfg.max_size := by omega
      have hslot : ((n + 1) % cfg.max_size + i) % cfg.max_size
          = (n % cfg.max_size + (i + 1)) % cfg.max_size := by
        rw [hcanon, Nat.mod_add_mod]
        congr 1
        omega
      have hne : n % cfg.max_size ≠ (n % cfg.max_size + (i + 1)) % cfg.max_size := by
        intro heq
        by_cases hsum : n % cfg.max_size + (i + 1) < cfg.max_size
        · rw [Nat.mod_eq_of_lt hsum] at heq; omega
        · have h1 : (n % cfg.max_size + (i + 1)) % cfg.max_size
              = (n % cfg.max_size + (i + 1) - cfg.max_size) % cfg.max_size :=
            Nat.mod_eq_sub_mod (by omega)
          have h2 : n % cfg.max_size + (i + 1) - cfg.max_size < cfg.max_size := by
            omega
          rw [h1, Nat.mod_eq_of_lt h2] at heq
          omega
      rw [hslot, getD_set_ne _ _ _ _ _ hne, ih (i + 1) hi1]
      congr 1
      omega

/-- Membership characterization once the ring has wrapped: every stored
timestep originates from one of the most recent `capacity` adds. -/
theorem afterAdds_mem_wrap {α : Type} [Inhabited α]
    (cfg : TrajectoryBufferConfig) (v : Nat → Timestep α)
    (hcap : 0 < cfg.max_size) (n : Nat) (hn : cfg.max_size ≤ n)
    (x : Timestep α) (hx : x ∈ (afterAdds cfg v n).experience) :
    ∃ m, n - cfg.max_size ≤ m ∧ m < n ∧ x = v m := by
  obtain ⟨j, hj, hxj⟩ := List.mem_iff_getElem.mp hx
  rw [afterAdds_length] at hj
  have hr : n % cfg.max_size < cfg.max_size := Nat.mod_lt _ hcap
  have hi : (j + cfg.max_size - n % cfg.max_size) % cfg.max_size < cfg.max_size :=
    Nat.mod_lt _ hcap
  have hslot : (n % cfg.max_size +
      (j + cfg.max_size - n % cfg.max_size) % cfg.max_size) % cfg.max_size = j := by
    rw [Nat.add_comm (n % cfg.max_size), Nat.mod_add_mod,
      Nat.add_comm (j + cfg.max_size - n % cfg.max_size)]
    have h3 : n % cfg.max_size + (j + cfg.max_size - n % cfg.max_size)
        = j + cfg.max_size := by omega
    rw [h3, Nat.add_mod_right, Nat.mod_eq_of_lt hj]
  have hgetD := afterAdds_getD_wrap cfg v hcap n hn
      ((j + cfg.max_size - n % cfg.max_size) % cfg.max_size) hi
  rw [hslot] at hgetD
  rw [List.getD_eq_getElem _ _ (by rw [afterAdds_length]; exact hj)] at hgetD
  refine ⟨n - cfg.max_size + (j + cfg.max_size - n % cfg.max_size) % cfg.max_size,
    Nat.le_add_right _ _, by omega, ?_⟩
  rw [← hgetD, hxj]

/-- Unfolding of one more facade `add` on top of the first `n`. -/
theorem addSeq_succ {α : Type} [Inhabited α] (f : FlashbaxReplayBuffer α)
    (obs act rew ter tru inf : Nat → α) (n : Nat) :
    addSeq f obs act rew ter tru inf (n + 1) =
      (addSeq f obs act rew ter tru inf n).add
        (obs n) (act n) (rew n) (ter n) (tru n) (inf n) := by
  simp [addSeq, List.range_succ]

/-- Facade adds never touch the buffer configuration (nor the functions bound
to it). -/
theorem addSeq_replay_buffer {α : Type} [Inhabited α]
    (f : FlashbaxReplayBuffer α) (obs act rew ter tru inf : Nat → α) (n : Nat) :
    (addSeq f obs act rew ter tru inf n)._replay_buffer = f._replay_buffer := by
  induction n with
  | zero => rfl
  | succ n ih => rw [addSeq_succ]; exact ih

/-- Facade adds never touch the generator key. -/
theorem addSeq_rng_key {α : Type} [Inhabited α]
    (f : FlashbaxReplayBuffer α) (obs act rew ter tru inf : Nat → α) (n : Nat) :
    (addSeq f obs act rew ter tru inf n)._rng_key = f._rng_key := by
  induction n with
  | zero => rfl
  | succ n ih => rw [addSeq_succ]; exact ih

/-- Calling the facade `add` `n` times on a facade whose store is still
uninitialised lazily creates the store on the first call and then threads the
buffer-level add, landing in `afterAdds` of the per-call timesteps. -/
theorem addSeq_buffer_state {α : Type} [Inhabited α]
    (f : FlashbaxReplayBuffer α) (hf : f._buffer_state = none)
    (obs act rew ter tru inf : Nat → α) (n : Nat) :
    (addSeq f obs act rew ter tru inf n)._buffer_state =
      if n = 0 then none
      else some (afterAdds f._replay_buffer
        (fun k => ⟨obs k, act k, rew k, ter k, tru k, inf k⟩) n) := by
  induction n with
  | zero => simpa [addSeq] using hf
  | succ n ih =>
    rw [addSeq_succ]
    by_cases h0 : n = 0
    · subst h0
      simp [addSeq, FlashbaxReplayBuffer.add, hf, afterAdds, addMany,
        List.range_succ]
    · rw [if_neg h0] at ih
      simp only [FlashbaxReplayBuffer.add, ih, addSeq_replay_buffer,
        if_neg (Nat.succ_ne_zero n), afterAdds_succ]

/-- The store occupancy after `n ≤ capacity` adds is exactly `n`. -/
theorem numWritten_afterAdds {α : Type} [Inhabited α]
    (cfg : TrajectoryBufferConfig) (v : Nat → Timestep α)
    (hcap : 0 < cfg.max_size) (n : Nat) (hn : n ≤ cfg.max_size) :
    numWritten cfg (afterAdds cfg v n) = n := by
  unfold numWritten
  rw [afterAdds_is_full cfg v hcap, afterAdds_current_index]
  by_cases h : cfg.max_size ≤ n
  · have he : n = cfg.max_size := Nat.le_antisymm hn h
    subst he
    simp
  · simp [h, Nat.mod_eq_of_lt (Nat.lt_of_not_le h)]

/-- The facade stores the continuation key of the split back before the
sampler runs, on both the success and the failure path. -/
theorem sample_snd_eq {α : Type} [Inhabited α] (f : FlashbaxReplayBuffer α) :
    (f.sample).2 = { f with _rng_key := (prng_split f._rng_key).1 } := by
  unfold FlashbaxReplayBuffer.sample
  cases f._buffer_state <;> rfl

/-- Sampling on an uninitialised store fails (the delegate raises on `None`). -/
theorem sample_none_eq {α : Type} [Inhabited α] (f : FlashbaxReplayBuffer α)
    (hf : f._buffer_state = none) :
    (f.sample).1 = Except.error SampleError.uninitializedState := by
  unfold FlashbaxReplayBuffer.sample
  rw [hf]

/-- Sampling on an initialised store delegates to the buffer sample function
with the fresh sample key. -/
theorem sample_some_eq {α : Type} [Inhabited α] (f : FlashbaxReplayBuffer α)
    (s : TrajectoryBufferState α) (hf : f._buffer_state = some s) :
    (f.sample).1 =
      Except.ok (buffer_sample f._replay_buffer s (prng_split f._rng_key).2) := by
  unfold FlashbaxReplayBuffer.sample
  rw [hf]

/-- Every drawn offset is an eligible offset, provided some offset is
eligible. -/
theorem sampledOffsets_subset {α : Type} (cfg : TrajectoryBufferConfig)
    (s : TrajectoryBufferState α) (key : Nat)
    (hne : eligibleOffsets cfg s ≠ []) :
    ∀ o ∈ sampledOffsets cfg s key, o ∈ eligibleOffsets cfg s := by
  intro o ho
  simp only [sampledOffsets, List.mem_map, List.mem_range] at ho
  obtain ⟨i, hi, rfl⟩ := ho
  have hlen : 0 < (eligibleOffsets cfg s).length := List.length_pos.mpr hne
  rw [List.getD_eq_getElem _ _ (Nat.mod_lt _ hlen)]
  exact List.getElem_mem _

/-- On a store that has not wrapped, an eligible offset's window fits inside
the written prefix. -/
theorem eligible_fits {α : Type} (cfg : TrajectoryBufferConfig)
    (s : TrajectoryBufferState α) (hfull : s.is_full = false) :
    ∀ o ∈ eligibleOffsets cfg s,
      o + cfg.sample_sequence_length ≤ s.current_index := by
  intro o ho
  unfold eligibleOffsets at ho
  rw [hfull] at ho
  simp at ho
  exact ho.2.1

/-- Offset `0` is eligible whenever one full window has been written. -/
theorem zero_mem_eligible {α : Type} (cfg : TrajectoryBufferConfig)
    (s : TrajectoryBufferState α) (hfull : s.is_full = false)
    (hL : 0 < cfg.sample_sequence_length)
    (hfit : cfg.sample_sequence_length ≤ s.current_index) :
    0 ∈ eligibleOffsets cfg s := by
  unfold eligibleOffsets
  rw [hfull]
  simp
  refine ⟨?_, ?_⟩ <;> omega

/-- On a store holding `n ≤ capacity` timesteps, the window at an offset whose
end stays within the written prefix reproduces the added timesteps. -/
theorem windowAt_afterAdds {α : Type} [Inhabited α]
    (cfg : TrajectoryBufferConfig) (v : Nat → Timestep α) (n o : Nat)
    (hn : n ≤ cfg.max_size) (ho : o + cfg.sample_sequence_length ≤ n) :
    windowAt cfg (afterAdds cfg v n) o =
      (List.range cfg.sample_sequence_length).map (fun j => v (o + j)) := by
  unfold windowAt
  refine List.map_congr_left ?_
  intro j hj
  rw [List.mem_range] at hj
  have hoj : o + j < cfg.max_size := by omega
  rw [Nat.mod_eq_of_lt hoj, afterAdds_getD_lt cfg v n (o + j) hn,
    if_pos (by omega)]

/-- C5: for every sequence of `N` adds with `N` at least the capacity, the
store's backing storage still has exactly `capacity` slots (it never grows and
no write is dropped into growth), the occupancy flag is set, reading the ring
forward from the write cursor yields exactly the most recent `capacity`
timesteps in their original temporal order, and each of the oldest
`N - capacity` timesteps is no longer retrievable from any slot. -/
theorem C5_ring_overwrites_oldest (l cap b p seed N : Nat)
    (hcap : 0 < cap) (hN : cap ≤ N) :
    ∃ s : TrajectoryBufferState Nat,
      (addSeq (FlashbaxReplayBuffer.make Nat l cap b p seed)
          id id id id id id N)._buffer_state = some s ∧
      s.experience.length = cap ∧
      s.is_full = true ∧
      (∀ i, i < cap →
        s.experience.getD ((N % cap + i) % cap) default =
          natTimestep (N - cap + i)) ∧
      (∀ k, k < N - cap → natTimestep k ∉ s.experience) := by
  have hv : (fun k => (⟨id k, id k, id k, id k, id k, id k⟩ : Timestep Nat))
      = natTimestep := rfl
  have hcfg : (FlashbaxReplayBuffer.make Nat l cap b p seed)._replay_buffer
      = { add_batch_size := 1, sample_batch_size := b,
          sample_sequence_length := l, period := p,
          min_length_time_axis := 1, max_size := cap } := rfl
  have hN0 : N ≠ 0 := by omega
  refine ⟨afterAdds (FlashbaxReplayBuffer.make Nat l cap b p seed)._replay_buffer
    natTimestep N, ?_, ?_, ?_, ?_, ?_⟩
  · rw [addSeq_buffer_state _ rfl, if_neg hN0, hv]
  · rw [afterAdds_length, hcfg]
  · rw [afterAdds_is_full _ _ hcap, hcfg]
    simpa using hN
  · intro i hi
    exact afterAdds_getD_wrap
      (FlashbaxReplayBuffer.make Nat l cap b p seed)._replay_buffer natTimestep
      hcap N hN i hi
  · intro k hk hmem
    obtain ⟨m, hm1, hm2, hm3⟩ := afterAdds_mem_wrap
      (FlashbaxReplayBuffer.make Nat l cap b p seed)._replay_buffer natTimestep
      hcap N hN _ hmem
    have hm1' : N - cap ≤ m := hm1
    have hkm : k = m := by
      have := hm3
      simp only [natTimestep, Timestep.mk.injEq] at this
      exact this.1
    omega

/-- Witness for C5 at the spec's concrete scenario: capacity 5, seven adds of
rewards `0..6`; rewards `2..6` remain in temporal order, `0` and `1` are gone. -/
theorem C5_ring_overwrites_oldest_witness :
    0 < 5 ∧ 5 ≤ 7 ∧
      ∃ s : TrajectoryBufferState Nat,
        (addSeq (FlashbaxReplayBuffer.make Nat 3 5 1 1 42)
            id id id id id id 7)._buffer_state = some s ∧
        s.experience.length = 5 ∧
        s.is_full = true ∧
        (∀ i, i < 5 →
          s.experience.getD ((7 % 5 + i) % 5) default = natTimestep (7 - 5 + i)) ∧
        (∀ k, k < 7 - 5 → natTimestep k ∉ s.experience) :=
  ⟨by decide, by decide,
    C5_ring_overwrites_oldest 3 5 1 1 42 7 (by decide) (by decide)⟩

/-- C6: for every `N ≤ capacity`, calling `add` `N` times appends exactly `N`
timesteps in call order — occupancy is exactly `N`, slot `j` holds the `j`-th
added record with all six fields identical to what was passed in — and every
window whose origin offset is known reproduces those per-field values
exactly. -/
theorem C6_add_in_order_windows_faithful {α : Type} [Inhabited α]
    (l cap b p seed N : Nat) (obs act rew ter tru inf : Nat → α)
    (h0 : 0 < N) (hN : N ≤ cap) :
    ∃ s : TrajectoryBufferState α,
      (addSeq (FlashbaxReplayBuffer.make α l cap b p seed)
          obs act rew ter tru inf N)._buffer_state = some s ∧
      numWritten (FlashbaxReplayBuffer.make α l cap b p seed)._replay_buffer s
        = N ∧
      (∀ j, j < N →
        s.experience.getD j default =
          ⟨obs j, act j, rew j, ter j, tru j, inf j⟩) ∧
      (∀ o, o + l ≤ N →
        windowAt (FlashbaxReplayBuffer.make α l cap b p seed)._replay_buffer s o
          = (List.range l).map (fun j =>
              ⟨obs (o + j), act (o + j), rew (o + j), ter (o + j), tru (o + j),
                inf (o + j)⟩)) := by
  have hcap : 0 < cap := Nat.lt_of_lt_of_le h0 hN
  have hcfg : (FlashbaxReplayBuffer.make α l cap b p seed)._replay_buffer
      = { add_batch_size := 1, sample_batch_size := b,
          sample_sequence_length := l, period := p,
          min_length_time_axis := 1, max_size := cap } := rfl
  refine ⟨afterAdds (FlashbaxReplayBuffer.make α l cap b p seed)._replay_buffer
    (fun k => ⟨obs k, act k, rew k, ter k, tru k, inf k⟩) N, ?_, ?_, ?_, ?_⟩
  · rw [addSeq_buffer_state _ rfl, if_neg (by omega)]
  · exact numWritten_afterAdds _ _ hcap N hN
  · intro j hj
    have := afterAdds_getD_lt
      (FlashbaxReplayBuffer.make α l cap b p seed)._replay_buffer
      (fun k => ⟨obs k, act k, rew k, ter k, tru k, inf k⟩) N j hN
    rw [this, if_pos hj]
  · intro o ho
    exact windowAt_afterAdds _ _ N o hN ho

/-- Witness for C6 at a concrete instance: four adds with distinct field
values on a capacity-10 facade with sequence length 2. -/
theorem C6_add_in_order_windows_faithful_witness :
    0 < 4 ∧ 4 ≤ 10 ∧
      ∃ s : TrajectoryBufferState Nat,
        (addSeq (FlashbaxReplayBuffer.make Nat 2 10 1 1 42)
            (fun k => k) (fun k => k + 100) (fun k => k + 200) (fun k => k + 300)
            (fun k => k + 400) (fun k => k + 500) 4)._buffer_state = some s ∧
        numWritten (FlashbaxReplayBuffer.make Nat 2 10 1 1 42)._replay_buffer s
          = 4 ∧
        (∀ j, j < 4 →
          s.experience.getD j default =
            ⟨j, j + 100, j + 200, j + 300, j + 400, j + 500⟩) ∧
        (∀ o, o + 2 ≤ 4 →
          windowAt (FlashbaxReplayBuffer.make Nat 2 10 1 1 42)._replay_buffer s o
            = (List.range 2).map (fun j =>
                ⟨o + j, o + j + 100, o + j + 200, o + j + 300, o + j + 400,
                  o + j + 500⟩)) :=
  ⟨by decide, by decide,
    C6_add_in_order_windows_faithful 2 10 1 1 42 4
      (fun k => k) (fun k => k + 100) (fun k => k + 200) (fun k => k + 300)
      (fun k => k + 400) (fun k => k + 500) (by decide) (by decide)⟩

/-- C3: after `K` adds with `K` below capacity (and at least one full window
written), `sample` succeeds and returns exactly `batch_size` windows of length
`sequence_length`, each of which is the window at some start offset `o` with
`o + sequence_length ≤ K` — no window reaches past the written prefix or wraps
into never-written ring slots, and each reproduces the added values. -/
theorem C3_sampled_windows_within_written {α : Type} [Inhabited α]
    (l cap b p seed K : Nat) (obs act rew ter tru inf : Nat → α)
    (hl : 0 < l) (hlK : l ≤ K) (hK : K < cap) :
    ∃ batch f',
      (addSeq (FlashbaxReplayBuffer.make α l cap b p seed)
          obs act rew ter tru inf K).sample = (Except.ok batch, f') ∧
      batch.length = b ∧
      ∀ w ∈ batch, ∃ o, o + l ≤ K ∧
        w = (List.range l).map (fun j =>
          ⟨obs (o + j), act (o + j), rew (o + j), ter (o + j), tru (o + j),
            inf (o + j)⟩) := by
  have hcap : 0 < cap := Nat.lt_of_le_of_lt (Nat.zero_le K) hK
  set cfg : TrajectoryBufferConfig :=
    { add_batch_size := 1, sample_batch_size := b, sample_sequence_length := l,
      period := p, min_length_time_axis := 1, max_size := cap } with hcfgdef
  set v : Nat → Timestep α :=
    fun k => ⟨obs k, act k, rew k, ter k, tru k, inf k⟩ with hvdef
  set f : FlashbaxReplayBuffer α :=
    addSeq (FlashbaxReplayBuffer.make α l cap b p seed) obs act rew ter tru inf K
    with hfdef
  have hstate : f._buffer_state = some (afterAdds cfg v K) := by
    rw [hfdef, addSeq_buffer_state _ rfl, if_neg (by omega)]
    rfl
  have hrb : f._replay_buffer = cfg := by
    rw [hfdef, addSeq_replay_buffer]
    rfl
  have hfull : (afterAdds cfg v K).is_full = false := by
    rw [afterAdds_is_full _ _ hcap]
    simpa using Nat.not_le.mpr hK
  have hci : (afterAdds cfg v K).current_index = K := by
    rw [afterAdds_current_index]
    exact Nat.mod_eq_of_lt hK
  have hne : eligibleOffsets cfg (afterAdds cfg v K) ≠ [] := by
    intro hnil
    have h0 : (0 : Nat) ∈ eligibleOffsets cfg (afterAdds cfg v K) :=
      zero_mem_eligible cfg _ hfull hl (by rw [hci]; exact hlK)
    rw [hnil] at h0
    exact (List.not_mem_nil 0) h0
  refine ⟨buffer_sample cfg (afterAdds cfg v K) (prng_split f._rng_key).2,
    (f.sample).2, ?_, ?_, ?_⟩
  · have h1 := sample_some_eq f (afterAdds cfg v K) hstate
    rw [hrb] at h1
    exact Prod.ext h1 rfl
  · simp [buffer_sample, sampledOffsets]
  · intro w hw
    simp only [buffer_sample, List.mem_map] at hw
    obtain ⟨o, ho, rfl⟩ := hw
    have homem := sampledOffsets_subset cfg _ _ hne o ho
    have hofit := eligible_fits cfg _ hfull o homem
    rw [hci] at hofit
    exact ⟨o, hofit, windowAt_afterAdds cfg v K o (Nat.le_of_lt hK) hofit⟩

/-- Witness for C3 at the spec's concrete scenario: 10 adds of rewards `0..9`
with sequence length 3, batch size 1, capacity 20 — every sampled window
starts at an offset `o ≤ 7`. -/
theorem C3_sampled_windows_within_written_witness :
    0 < 3 ∧ 3 ≤ 10 ∧ 10 < 20 ∧
      ∃ batch f',
        (addSeq (FlashbaxReplayBuffer.make Nat 3 20 1 1 42)
            id id id id id id 10).sample = (Except.ok batch, f') ∧
        batch.length = 1 ∧
        ∀ w ∈ batch, ∃ o, o + 3 ≤ 10 ∧
          w = (List.range 3).map (fun j =>
            ⟨id (o + j), id (o + j), id (o + j), id (o + j), id (o + j),
              id (o + j)⟩) :=
  ⟨by decide, by decide, by decide,
    C3_sampled_windows_within_written 3 20 1 1 42 10 id id id id id id
      (by decide) (by decide) (by decide)⟩

/-- C4: determinism as a two-run property — two independently constructed
facade instances with the same seed and the same construction parameters,
driven by identical add/sample call sequences, produce identical sampled
batches at every corresponding `sample` call (and identical final states). -/
theorem C4_two_run_determinism {α : Type} [Inhabited α]
    (l cap b p seed : Nat) (f1 f2 : FlashbaxReplayBuffer α)
    (cs1 cs2 : List (FacadeCall α))
    (h1 : f1 = FlashbaxReplayBuffer.make α l cap b p seed)
    (h2 : f2 = FlashbaxReplayBuffer.make α l cap b p seed)
    (hcs : cs1 = cs2) :
    (runCalls f1 cs1).2 = (runCalls f2 cs2).2 ∧
      (runCalls f1 cs1).1 = (runCalls f2 cs2).1 := by
  subst h1 h2 hcs
  exact ⟨rfl, rfl⟩

/-- Witness for C4: two fresh seed-7 facades driven by the same
add-add-sample-sample sequence report identical batch lists. -/
theorem C4_two_run_determinism_witness :
    (runCalls (FlashbaxReplayBuffer.make Nat 2 5 1 1 7)
        [FacadeCall.add 1 2 3 4 5 6, FacadeCall.add 7 8 9 10 11 12,
          FacadeCall.sample, FacadeCall.sample]).2 =
      (runCalls (FlashbaxReplayBuffer.make Nat 2 5 1 1 7)
        [FacadeCall.add 1 2 3 4 5 6, FacadeCall.add 7 8 9 10 11 12,
          FacadeCall.sample, FacadeCall.sample]).2 :=
  (C4_two_run_determinism 2 5 1 1 7
    (FlashbaxReplayBuffer.make Nat 2 5 1 1 7)
    (FlashbaxReplayBuffer.make Nat 2 5 1 1 7)
    [FacadeCall.add 1 2 3 4 5 6, FacadeCall.add 7 8 9 10 11 12,
      FacadeCall.sample, FacadeCall.sample]
    [FacadeCall.add 1 2 3 4 5 6, FacadeCall.add 7 8 9 10 11 12,
      FacadeCall.sample, FacadeCall.sample] rfl rfl rfl).1

/-- Counterexample to C7 as stated: on a facade with `sequence_length = 3`
holding a single added timestep (fewer than `sequence_length` contiguous
timesteps), `sample` does not fail with an "insufficient data" error — it
succeeds and returns a window padded with the zero-filled never-written
slots. -/
theorem C7_counterexample :
    ((((FlashbaxReplayBuffer.make Nat 3 20 1 1 42).add 1 1 1 1 1 1).sample).1 =
        Except.ok [[natTimestep 1, natTimestep 0, natTimestep 0]]) ∧
      ((((FlashbaxReplayBuffer.make Nat 3 20 1 1 42).add 1 1 1 1 1 1).sample).1 ≠
        Except.error SampleError.insufficientData) := by
  have h1 : ((((FlashbaxReplayBuffer.make Nat 3 20 1 1 42).add 1 1 1 1 1 1).sample).1 =
      Except.ok [[natTimestep 1, natTimestep 0, natTimestep 0]]) := rfl
  refine ⟨h1, ?_⟩
  rw [h1]
  intro h
  exact Except.noConfusion h

/-- C7 amended: the facade performs no insufficient-data check.  A `sample`
call before any `add` fails, but with an uninitialised-state failure (the
delegate raising on `None`), not a dedicated "insufficient data" error; and a
`sample` call on a store holding `0 < K < sequence_length` timesteps does not
fail at all — it returns `batch_size` copies of the window at the degenerate
offset `0`, whose entries at positions at and beyond `K` are the zero-filled
(`default`) never-written slots. -/
theorem C7_amended_no_insufficient_data_guard {α : Type} [Inhabited α]
    (l cap b p seed K : Nat) (obs act rew ter tru inf : Nat → α)
    (h0 : 0 < K) (hKl : K < l) (hlcap : l ≤ cap) :
    ((FlashbaxReplayBuffer.make α l cap b p seed).sample).1 =
        Except.error SampleError.uninitializedState ∧
      ∃ s f',
        (addSeq (FlashbaxReplayBuffer.make α l cap b p seed)
            obs act rew ter tru inf K)._buffer_state = some s ∧
        (addSeq (FlashbaxReplayBuffer.make α l cap b p seed)
            obs act rew ter tru inf K).sample =
          (Except.ok (List.replicate b
            (windowAt (FlashbaxReplayBuffer.make α l cap b p seed)._replay_buffer
              s 0)), f') ∧
        (∀ j, K ≤ j → j < l →
          (windowAt (FlashbaxReplayBuffer.make α l cap b p seed)._replay_buffer
              s 0).getD j default = default) := by
  have hcap : 0 < cap := by omega
  set cfg : TrajectoryBufferConfig :=
    { add_batch_size := 1, sample_batch_size := b, sample_sequence_length := l,
      period := p, min_length_time_axis := 1, max_size := cap } with hcfgdef
  set v : Nat → Timestep α :=
    fun k => ⟨obs k, act k, rew k, ter k, tru k, inf k⟩ with hvdef
  set f : FlashbaxReplayBuffer α :=
    addSeq (FlashbaxReplayBuffer.make α l cap b p seed) obs act rew ter tru inf K
    with hfdef
  have hstate : f._buffer_state = some (afterAdds cfg v K) := by
    rw [hfdef, addSeq_buffer_state _ rfl, if_neg (by omega)]
    rfl
  have hrb : f._replay_buffer = cfg := by
    rw [hfdef, addSeq_replay_buffer]
    rfl
  have hKcap : K < cap := by omega
  have hfull : (afterAdds cfg v K).is_full = false := by
    rw [afterAdds_is_full _ _ hcap]
    simpa using Nat.not_le.mpr hKcap
  have hci : (afterAdds cfg v K).current_index = K := by
    rw [afterAdds_current_index]
    exact Nat.mod_eq_of_lt hKcap
  have helig : eligibleOffsets cfg (afterAdds cfg v K) = [] := by
    unfold eligibleOffsets
    rw [hfull]
    simp only [Bool.false_eq_true, if_false]
    rw [List.filter_eq_nil_iff]
    intro a ha
    rw [List.mem_range, hci] at ha
    simp only [Bool.and_eq_true, decide_eq_true_eq, not_and, hci]
    intro hfit
    omega
  have hoffsets : sampledOffsets cfg (afterAdds cfg v K) (prng_split f._rng_key).2
      = List.replicate b 0 := by
    unfold sampledOffsets
    rw [helig]
    simp [List.map_const']
  refine ⟨sample_none_eq _ rfl, afterAdds cfg v K, (f.sample).2, hstate, ?_, ?_⟩
  · have h1 := sample_some_eq f (afterAdds cfg v K) hstate
    rw [hrb] at h1
    unfold buffer_sample at h1
    rw [hoffsets] at h1
    rw [List.map_replicate] at h1
    exact Prod.ext h1 rfl
  · intro j hKj hjl
    show (windowAt cfg (afterAdds cfg v K) 0).getD j default = default
    have hjlen : j < (windowAt cfg (afterAdds cfg v K) 0).length := by
      simpa [windowAt] using hjl
    rw [List.getD_eq_getElem _ _ hjlen]
    simp only [windowAt, List.getElem_map, List.getElem_range, hcfgdef,
      Nat.zero_add]
    rw [Nat.mod_eq_of_lt (show j < cap by omega)]
    rw [afterAdds_getD_lt _ v K j (show K ≤ cap by omega)]
    rw [if_neg (by omega)]

/-- Witness for C7's amended statement at a concrete instance: sequence
length 3, capacity 20, one single add. -/
theorem C7_amended_no_insufficient_data_guard_witness :
    0 < 1 ∧ 1 < 3 ∧ 3 ≤ 20 ∧
      (((FlashbaxReplayBuffer.make Nat 3 20 1 1 42).sample).1 =
          Except.error SampleError.uninitializedState ∧
        ∃ s f',
          (addSeq (FlashbaxReplayBuffer.make Nat 3 20 1 1 42)
              id id id id id id 1)._buffer_state = some s ∧
          (addSeq (FlashbaxReplayBuffer.make Nat 3 20 1 1 42)
              id id id id id id 1).sample =
            (Except.ok (List.replicate 1
              (windowAt (FlashbaxReplayBuffer.make Nat 3 20 1 1 42)._replay_buffer
                s 0)), f') ∧
          (∀ j, 1 ≤ j → j < 3 →
            (windowAt (FlashbaxReplayBuffer.make Nat 3 20 1 1 42)._replay_buffer
                s 0).getD j default = default)) :=
  ⟨by decide, by decide, by decide,
    C7_amended_no_insufficient_data_guard 3 20 1 1 42 1 id id id id id id
      (by decide) (by decide) (by decide)⟩

/-- C8: the construction-time sampler is built with stride `sample_period`
between candidate start offsets, while the sampler rebuilt by every successful
`populate_from_vault` uses period `1`, so that on the rebuilt configuration an
offset of a not-yet-wrapped store is eligible exactly when its window fits in
the written prefix — every valid start offset is eligible. -/
theorem C8_period_construction_vs_snapshot {α : Type} (l cap b p seed : Nat) :
    (FlashbaxReplayBuffer.make α l cap b p seed)._replay_buffer.period = p ∧
      (∀ (f : FlashbaxReplayBuffer α) (st : TrajectoryBufferState α),
        ((f.populate_from_vault (some st)).2)._replay_buffer.period = 1) ∧
      (∀ (f : FlashbaxReplayBuffer α) (st s : TrajectoryBufferState α) (i : Nat),
        s.is_full = false → 0 < f._sequence_length →
        (i ∈ eligibleOffsets ((f.populate_from_vault (some st)).2)._replay_buffer s
          ↔ i + f._sequence_length ≤ s.current_index)) := by
  refine ⟨rfl, fun f st => rfl, ?_⟩
  intro f st s i hfull hL
  unfold eligibleOffsets
  rw [hfull]
  simp only [Bool.false_eq_true, if_false, List.mem_filter, List.mem_range,
    Bool.and_eq_true, decide_eq_true_eq]
  have hcfg : ((f.populate_from_vault (some st)).2)._replay_buffer.sample_sequence_length
      = f._sequence_length := rfl
  have hper : ((f.populate_from_vault (some st)).2)._replay_buffer.period = 1 := rfl
  rw [hcfg, hper]
  constructor
  · intro h
    exact h.2.1
  · intro h
    exact ⟨by omega, h, Nat.mod_one i⟩

/-- Witness for C8 at concrete values: construction period 2 survives in the
built sampler; after a snapshot load a fitting offset is eligible. -/
theorem C8_period_construction_vs_snapshot_witness :
    (FlashbaxReplayBuffer.make Nat 3 20 4 2 42)._replay_buffer.period = 2 ∧
      (1 ∈ eligibleOffsets
          (((FlashbaxReplayBuffer.make Nat 3 20 4 2 42).populate_from_vault
              (some ⟨List.replicate 5 (natTimestep 0), 5, false⟩)).2)._replay_buffer
          ⟨List.replicate 5 (natTimestep 0), 5, false⟩
        ↔ 1 + 3 ≤ 5) :=
  ⟨(C8_period_construction_vs_snapshot 3 20 4 2 42).1,
    (C8_period_construction_vs_snapshot 3 20 4 2 42).2.2
      (FlashbaxReplayBuffer.make Nat 3 20 4 2 42)
      ⟨List.replicate 5 (natTimestep 0), 5, false⟩
      ⟨List.replicate 5 (natTimestep 0), 5, false⟩ 1 rfl (by decide)⟩

/-- The generator key never decreases across a run of facade calls. -/
theorem runCalls_key_mono {α : Type} [Inhabited α] :
    ∀ (cs : List (FacadeCall α)) (f : FlashbaxReplayBuffer α),
      f._rng_key ≤ (runCalls f cs).1._rng_key := by
  intro cs
  induction cs with
  | nil => intro f; exact Nat.le_refl _
  | cons c cs ih =>
    intro f
    cases c with
    | add o a r t tr i =>
      simpa only [runCalls] using ih (f.add o a r t tr i)
    | sample =>
      have h1 := ih (f.sample).2
      have hk : (f.sample).2._rng_key = 2 * f._rng_key + 1 := by
        rw [sample_snd_eq]
        rfl
      simp only [runCalls]
      omega

/-- Every key consumed during a run is at least `2 k + 2` for the starting key
`k`, and at most one more than the final retained key. -/
theorem consumedKeys_bounds {α : Type} [Inhabited α] :
    ∀ (cs : List (FacadeCall α)) (f : FlashbaxReplayBuffer α) (x : Nat),
      x ∈ consumedKeys f cs →
        2 * f._rng_key + 2 ≤ x ∧ x ≤ (runCalls f cs).1._rng_key + 1 := by
  intro cs
  induction cs with
  | nil => intro f x hx; simp [consumedKeys] at hx
  | cons c cs ih =>
    intro f x hx
    cases c with
    | add o a r t tr i =>
      simp only [consumedKeys] at hx
      have h1 := ih (f.add o a r t tr i) x hx
      exact ⟨h1.1, h1.2⟩
    | sample =>
      simp only [consumedKeys, List.mem_cons] at hx
      have hk : (f.sample).2._rng_key = 2 * f._rng_key + 1 := by
        rw [sample_snd_eq]
        rfl
      have hmono := runCalls_key_mono cs (f.sample).2
      rcases hx with rfl | hx
      · constructor
        · simp only [prng_split]
          omega
        · simp only [runCalls, prng_split]
          omega
      · obtain ⟨h1a, h1b⟩ := ih (f.sample).2 x hx
        constructor
        · omega
        · simpa only [runCalls] using h1b

/-- The keys consumed by successive `sample` calls are strictly increasing. -/
theorem consumedKeys_sorted {α : Type} [Inhabited α] :
    ∀ (cs : List (FacadeCall α)) (f : FlashbaxReplayBuffer α),
      (consumedKeys f cs).Pairwise (· < ·) := by
  intro cs
  induction cs with
  | nil => intro f; simp [consumedKeys]
  | cons c cs ih =>
    intro f
    cases c with
    | add o a r t tr i => simpa only [consumedKeys] using ih (f.add o a r t tr i)
    | sample =>
      simp only [consumedKeys]
      refine List.Pairwise.cons ?_ (ih (f.sample).2)
      intro x hx
      have h1 := (consumedKeys_bounds cs (f.sample).2 x hx).1
      have hk : (f.sample).2._rng_key = 2 * f._rng_key + 1 := by
        rw [sample_snd_eq]
        rfl
      simp only [prng_split]
      omega

/-- C10: every `sample` call stores the continuation key of the split back
into the facade before the sampler is invoked — the resulting facade differs
from the caller only in its key, on both the success and the failure path, so
the key advances even on a call that fails (for instance one made before the
first `add`) — and across any call sequence no two `sample` calls ever consume
the same sample key. -/
theorem C10_key_advances_and_never_repeats {α : Type} [Inhabited α] :
    (∀ f : FlashbaxReplayBuffer α,
      (f.sample).2 = { f with _rng_key := (prng_split f._rng_key).1 }) ∧
      (∀ f : FlashbaxReplayBuffer α, f._buffer_state = none →
        (f.sample).1 = Except.error SampleError.uninitializedState ∧
          (f.sample).2._rng_key = (prng_split f._rng_key).1) ∧
      (∀ (f : FlashbaxReplayBuffer α) (cs : List (FacadeCall α)),
        (consumedKeys f cs).Pairwise (· ≠ ·)) := by
  refine ⟨sample_snd_eq, ?_, ?_⟩
  · intro f hf
    refine ⟨sample_none_eq f hf, ?_⟩
    rw [sample_snd_eq]
  · intro f cs
    exact (consumedKeys_sorted cs f).imp Nat.ne_of_lt

/-- Witness for C10: a fresh facade with no store raises on `sample` yet its
key advances, and a concrete four-call run consumes pairwise distinct keys. -/
theorem C10_key_advances_and_never_repeats_witness :
    ((FlashbaxReplayBuffer.make Nat 2 5 1 1 9)._buffer_state = none) ∧
      (((FlashbaxReplayBuffer.make Nat 2 5 1 1 9).sample).1 =
          Except.error SampleError.uninitializedState ∧
        ((FlashbaxReplayBuffer.make Nat 2 5 1 1 9).sample).2._rng_key =
          (prng_split (FlashbaxReplayBuffer.make Nat 2 5 1 1 9)._rng_key).1) ∧
      (consumedKeys (FlashbaxReplayBuffer.make Nat 2 5 1 1 9)
          [FacadeCall.sample, FacadeCall.add 1 1 1 1 1 1, FacadeCall.sample,
            FacadeCall.sample]).Pairwise (· ≠ ·) :=
  ⟨rfl,
    (C10_key_advances_and_never_repeats (α := Nat)).2.1
      (FlashbaxReplayBuffer.make Nat 2 5 1 1 9) rfl,
    (C10_key_advances_and_never_repeats (α := Nat)).2.2
      (FlashbaxReplayBuffer.make Nat 2 5 1 1 9)
      [FacadeCall.sample, FacadeCall.add 1 1 1 1 1 1, FacadeCall.sample,
        FacadeCall.sample]⟩
